import Mathlib

/-!
Shallow embedding of the logh repository (rnojiri/logh): the contextual
key/value logger of logh.go and the bounded in-memory writer of
string_buffer.go, with theorems settling the frozen claims about them.

Conventions of the translation:
- Go dynamically typed values (interface{}) are embedded as the sum type
  GoVal; the reflect-derived rvalue and kind fields of the Go keyValue
  struct are functions of the stored value, so KeyValue keeps only key and
  value and the kind dispatch of addContext pattern-matches on the value.
- Go panics are modelled by the error side of Except GoPanic; a function
  that can both panic and return an error value nests them.
- Methods with a pointer receiver return the receiver post-state
  explicitly wherever the claims speak about mutation of the receiver.
- Go sort.Sort runs plain insertion sort on slices of at most six
  elements in every Go release (the pdqsort of modern Go falls back to
  insertion sort below 12 elements, and the older quicksort falls back to
  insertion sort, preceded by a gap-6 Shell pass that is a no-op below 7
  elements). The embedding sortGo is that insertion sort, and theorems
  about the sorted order carry a size bound keeping them inside the regime
  where the embedding is exact; permutation facts hold for any sort.
-/

/-- Dynamically typed argument value (Go interface{}), restricted to the
scalar kinds the claims exercise. -/
inductive GoVal where
  | str (s : String)
  | int (n : Int)
  | bool (b : Bool)
deriving DecidableEq

/-- Embeds the keyValue struct of logh.go. The rvalue and kind fields are
recomputed from value on demand, so they are not stored. -/
structure KeyValue where
  key : String
  value : GoVal
deriving DecidableEq

/-- Embeds ErrWrongNumberOfArgs, the only error value of logh.go. -/
inductive LoghError where
  | wrongNumberOfArgs
deriving DecidableEq

/-- Run-time aborts of the Go code: a panic carrying an error value, a
failed interface type assertion, and a slice index out of range. -/
inductive GoPanic where
  | errPanic (e : LoghError)
  | typeAssertPanic
  | outOfRange
deriving DecidableEq

/-- Embeds the Go string less-than: lexicographic on the code points,
which on UTF-8 encoded strings agrees with the bytewise Go order. -/
def goStrLt : List Char → List Char → Bool
  | [], [] => false
  | [], _ :: _ => true
  | _ :: _, [] => false
  | a :: as, b :: bs =>
    if a.toNat < b.toNat then true
    else if b.toNat < a.toNat then false
    else goStrLt as bs

/-- Embeds the Go len of a string: the UTF-8 byte count, summed over the
encoded sizes of the code points (len in Go counts bytes, not characters). -/
def utf8Len : List Char → Nat
  | [] => 0
  | c :: cs => c.utf8Size + utf8Len cs

/-- Embeds byKey.Less of logh.go: two keys are ordered only when their
Go lengths (UTF-8 byte counts) agree and the first is lexicographically
smaller. -/
def byKeyLess (a b : KeyValue) : Bool :=
  utf8Len a.key.data == utf8Len b.key.data && goStrLt a.key.data b.key.data

/-- Inner loop of insertion sort, operating on the reversed sorted run:
the inserted element moves past each already placed element y as long as
less x y holds, exactly like the backward swap loop of Go insertionSort. -/
def bubble (less : α → α → Bool) (x : α) : List α → List α
  | [] => [x]
  | y :: ys => if less x y then y :: bubble less x ys else x :: y :: ys

/-- Inserts x into the sorted run p scanning from the right end, as the Go
insertion sort does. -/
def insertGo (less : α → α → Bool) (p : List α) (x : α) : List α :=
  (bubble less x p.reverse).reverse

/-- Embeds the effect of sort.Sort on a small slice: plain insertion
sort under the given comparator (see the header note on the size regime). -/
def sortGo (less : α → α → Bool) (l : List α) : List α :=
  l.foldl (insertGo less) []

/-- Embeds toKeyValueArray of logh.go: pairs up the flat argument list,
asserting each even position to a string key. A non-string key position
is a type-assertion panic; a dangling final key (odd input, unreachable
from the parity-checked callers) is an index-out-of-range panic. -/
def toKeyValueArray : List GoVal → Except GoPanic (List KeyValue)
  | [] => .ok []
  | GoVal.str k :: v :: rest =>
    match toKeyValueArray rest with
    | .ok items => .ok (⟨k, v⟩ :: items)
    | .error p => .error p
  | GoVal.str _ :: [] => .error .outOfRange
  | _ :: _ => .error .typeAssertPanic

/-- Embeds the ContextualLogger struct of logh.go. -/
structure ContextualLogger where
  keyValues : List KeyValue
deriving DecidableEq

/-- Embeds CreateContextualLogger of logh.go: panics with
ErrWrongNumberOfArgs on an odd argument count, otherwise pairs the
arguments up and sorts them with the byKey comparator. -/
def CreateContextualLogger (keyValues : List GoVal) : Except GoPanic ContextualLogger :=
  if keyValues.length % 2 ≠ 0 then .error (.errPanic .wrongNumberOfArgs)
  else
    match toKeyValueArray keyValues with
    | .error p => .error p
    | .ok kvs => .ok ⟨sortGo byKeyLess kvs⟩

/-- Embeds ContextualLogger.Append of logh.go: returns
ErrWrongNumberOfArgs on an odd argument count leaving the receiver
untouched, otherwise appends the new pairs and re-sorts the whole stored
list. The first component of the ok result is the receiver post-state. -/
def ContextualLogger.append (cl : ContextualLogger) (keyValues : List GoVal) :
    Except GoPanic (ContextualLogger × Option LoghError) :=
  if keyValues.length % 2 ≠ 0 then .ok (cl, some .wrongNumberOfArgs)
  else
    match toKeyValueArray keyValues with
    | .error p => .error p
    | .ok items => .ok (⟨sortGo byKeyLess (cl.keyValues ++ items)⟩, none)

/-- Embeds ContextualLogger.MustAppend of logh.go: panics with the error
returned by Append. -/
def ContextualLogger.mustAppend (cl : ContextualLogger) (keyValues : List GoVal) :
    Except GoPanic ContextualLogger :=
  match cl.append keyValues with
  | .error p => .error p
  | .ok (_, some e) => .error (.errPanic e)
  | .ok (cl2, none) => .ok cl2

/-- Embeds ContextualLogger.GetContexts of logh.go: flattens the stored
pairs back into the alternating key/value form, keys as string values. -/
def ContextualLogger.getContexts (cl : ContextualLogger) : List GoVal :=
  cl.keyValues.flatMap fun kv => [GoVal.str kv.key, kv.value]

/-- Flattens a pair list into the alternating key/value argument form;
the valid (even-length, string-keyed) inputs of the constructor are
exactly the lists of this shape. -/
def flattenKVs (l : List KeyValue) : List GoVal :=
  l.flatMap fun kv => [GoVal.str kv.key, kv.value]

/-- Embeds ContextualLogger.CreateFromContext of logh.go: re-creates a
logger from the flattened contexts of the receiver and appends the extra
pairs to the copy. The receiver is read through GetContexts and assigned
nowhere in the source body, so its post-state (first component of the ok
result) is the receiver itself. -/
def ContextualLogger.createFromContext (cl : ContextualLogger) (keyValues : List GoVal) :
    Except GoPanic (ContextualLogger × Except LoghError ContextualLogger) :=
  match CreateContextualLogger cl.getContexts with
  | .error p => .error p
  | .ok ccl =>
    match ccl.append keyValues with
    | .error p => .error p
    | .ok (_, some e) => .ok (cl, .error e)
    | .ok (ccl2, none) => .ok (cl, .ok ccl2)

/-- Embeds ContextualLogger.MustCreateFromContext of logh.go: panics with
the error returned by CreateFromContext. -/
def ContextualLogger.mustCreateFromContext (cl : ContextualLogger) (keyValues : List GoVal) :
    Except GoPanic (ContextualLogger × ContextualLogger) :=
  match cl.createFromContext keyValues with
  | .error p => .error p
  | .ok (_, .error e) => .error (.errPanic e)
  | .ok (cl1, .ok ccl) => .ok (cl1, ccl)

/-- Typed fields attached to a pending event, one constructor per typed
setter of the collaborator that the embedded kinds reach. -/
inductive EvField where
  | str (k : String) (v : String)
  | int (k : String) (v : Int)
  | bool (k : String) (v : Bool)
deriving DecidableEq

/-- Modelled from the spec: the external collaborator represents a pending
event as the ordered list of fields attached so far; the nil sentinel of a
disabled level is the none case. -/
abbrev Event := List EvField

/-- Modelled from the spec: level-gated event acquisition of the
collaborator, as performed by the package-level accessors of logh.go —
a fresh empty event when the level is enabled, the nil sentinel otherwise. -/
def acquireEvent (enabled : Bool) : Option Event :=
  if enabled then some [] else none

/-- Modelled from the spec: the string setter of the collaborator, which
appends a field to the pending event and is a no-op on the nil sentinel. -/
def evStr (ev : Option Event) (k v : String) : Option Event :=
  match ev with
  | none => none
  | some fs => some (fs ++ [EvField.str k v])

/-- Modelled from the spec: the integer setter of the collaborator, which
appends a field to the pending event and is a no-op on the nil sentinel. -/
def evInt (ev : Option Event) (k : String) (v : Int) : Option Event :=
  match ev with
  | none => none
  | some fs => some (fs ++ [EvField.int k v])

/-- Embeds one iteration of the attachment loop of addContext in logh.go:
dispatch on the runtime kind of the stored value to the matching typed
setter. -/
def attachOne (fs : Event) (kv : KeyValue) : Event :=
  match kv.value with
  | GoVal.str s => fs ++ [EvField.str kv.key s]
  | GoVal.int n => fs ++ [EvField.int kv.key n]
  | GoVal.bool b => fs ++ [EvField.bool kv.key b]

/-- Embeds ContextualLogger.addContext of logh.go: returns the nil
sentinel unchanged without running the attachment loop, otherwise attaches
every stored pair in stored order. -/
def ContextualLogger.addContext (cl : ContextualLogger) (ev : Option Event) : Option Event :=
  match ev with
  | none => none
  | some fs => some (cl.keyValues.foldl attachOne fs)

/-- Embeds ContextualLogger.Info of logh.go: acquire the level-gated
event and attach the stored context. The enabled flag stands for the
process-wide level configuration of the collaborator. -/
def ContextualLogger.info (cl : ContextualLogger) (infoEnabled : Bool) : Option Event :=
  cl.addContext (acquireEvent infoEnabled)

/-- Embeds ContextualLogger.ErrorLineC of logh.go. The caller argument
stands for the result of runtime.Caller: some (file, line) on success,
none on failure. On failure the source assigns the sentinel filename
unknown and the sentinel line -1, attaches the filename, and attaches the
line field only under the ok guard (so the -1 assignment is dead). -/
def ContextualLogger.errorLineC (cl : ContextualLogger) (errorEnabled : Bool)
    (caller : Option (String × Int)) : Option Event :=
  let filename := match caller with | some c => c.1 | none => "unknown"
  let line : Int := match caller with | some c => c.2 | none => -1
  let ev := acquireEvent errorEnabled
  let ev := evStr ev "@file" filename
  let ev := match caller with | some _ => evInt ev "@line" line | none => ev
  cl.addContext ev

/-- Embeds the StringWriter struct of string_buffer.go. -/
structure StringWriter where
  buffer : List UInt8
  index : Nat
  size : Nat
deriving DecidableEq

/-- Embeds NewStringWriter of string_buffer.go: a zeroed buffer of the
given capacity with the cursor at the start. -/
def NewStringWriter (size : Nat) : StringWriter :=
  { buffer := List.replicate size 0, index := 0, size := size }

/-- Embeds the byte loop of StringWriter.Write: stores bytes one at a time
until the input ends or the cursor reaches capacity, threading the count
of bytes written in this call; the boolean reports the io.EOF result (the
CapacityExceeded signal of the spec). -/
def writeLoop (sb : StringWriter) (p : List UInt8) (n : Nat) : StringWriter × Nat × Bool :=
  match p with
  | [] => (sb, n, false)
  | b :: rest =>
    if sb.size ≤ sb.index then (sb, n, true)
    else
      writeLoop { sb with buffer := sb.buffer.set sb.index b, index := sb.index + 1 } rest (n + 1)

/-- Embeds StringWriter.Write of string_buffer.go. -/
def StringWriter.write (sb : StringWriter) (p : List UInt8) : StringWriter × Nat × Bool :=
  writeLoop sb p 0

/-- Embeds StringWriter.Reset of string_buffer.go: rewinds the cursor and
keeps the buffer contents. -/
def StringWriter.reset (sb : StringWriter) : StringWriter :=
  { sb with index := 0 }

/-- Embeds StringWriter.Bytes of string_buffer.go: the stored view
buffer[0:index]. -/
def StringWriter.bytes (sb : StringWriter) : List UInt8 :=
  sb.buffer.take sb.index

/-- The backward insertion pass produces a permutation of the element
consed onto the run. -/
theorem bubble_perm (less : α → α → Bool) (x : α) (l : List α) :
    List.Perm (bubble less x l) (x :: l) := by
  induction l with
  | nil => exact List.Perm.refl _
  | cons y ys ih =>
    simp only [bubble]
    split
    · exact (List.Perm.cons y ih).trans (List.Perm.swap x y ys)
    · exact List.Perm.refl _

/-- Right-scan insertion produces a permutation of the element consed
onto the run. -/
theorem insertGo_perm (less : α → α → Bool) (p : List α) (x : α) :
    List.Perm (insertGo less p x) (x :: p) := by
  unfold insertGo
  exact (List.reverse_perm _).trans
    ((bubble_perm less x p.reverse).trans (List.Perm.cons x (List.reverse_perm p)))

/-- Folding right-scan insertion over a list permutes the accumulated run
followed by the remaining input. -/
theorem foldl_insertGo_perm (less : α → α → Bool) (l : List α) :
    ∀ acc : List α, List.Perm (l.foldl (insertGo less) acc) (acc ++ l) := by
  induction l with
  | nil => intro acc; simp
  | cons x xs ih =>
    intro acc
    simp only [List.foldl_cons]
    exact (ih (insertGo less acc x)).trans
      (((insertGo_perm less acc x).append_right xs).trans List.perm_middle.symm)

/-- The embedded sort is a permutation of its input. -/
theorem sortGo_perm (less : α → α → Bool) (l : List α) :
    List.Perm (sortGo less l) l :=
  foldl_insertGo_perm less l []

/-- When the inserted element is below nothing in the run, the backward
pass stops immediately. -/
theorem bubble_eq (less : α → α → Bool) (x : α) (l : List α)
    (h : ∀ y ∈ l, less x y = false) : bubble less x l = x :: l := by
  cases l with
  | nil => rfl
  | cons y ys => simp [bubble, h y (by simp)]

/-- When the inserted element is below nothing in the run, right-scan
insertion appends it at the end. -/
theorem insertGo_eq (less : α → α → Bool) (p : List α) (x : α)
    (h : ∀ y ∈ p, less x y = false) : insertGo less p x = p ++ [x] := by
  unfold insertGo
  rw [bubble_eq less x p.reverse (fun y hy => h y (by simpa using hy))]
  simp

/-- Folding right-scan insertion over pairwise unordered elements keeps
the input order. -/
theorem foldl_insertGo_eq (less : α → α → Bool) (l : List α)
    (hl : ∀ a ∈ l, ∀ b ∈ l, less a b = false) :
    ∀ acc : List α, (∀ x ∈ l, ∀ y ∈ acc, less x y = false) →
      l.foldl (insertGo less) acc = acc ++ l := by
  induction l with
  | nil => intro acc _; simp
  | cons x xs ih =>
    intro acc hacc
    simp only [List.foldl_cons]
    rw [insertGo_eq less acc x (fun y hy => hacc x (by simp) y hy)]
    rw [ih (fun a ha b hb => hl a (by simp [ha]) b (by simp [hb])) (acc ++ [x]) ?_]
    · simp
    · intro z hz y hy
      rcases List.mem_append.mp hy with h1 | h2
      · exact hacc z (by simp [hz]) y h1
      · rw [List.mem_singleton.mp h2] at hy ⊢
        exact hl z (by simp [hz]) x (by simp)

/-- Sorting a list whose elements the comparator never orders is the
identity: in particular the byKey sort keeps insertion order when no two
keys are comparable. -/
theorem sortGo_eq_self (less : α → α → Bool) (l : List α)
    (hl : ∀ a ∈ l, ∀ b ∈ l, less a b = false) : sortGo less l = l := by
  unfold sortGo
  rw [foldl_insertGo_eq less l hl [] (by intro x _ y hy; cases hy)]
  simp

/-- Flattening doubles the length. -/
theorem flattenKVs_length (l : List KeyValue) :
    (flattenKVs l).length = 2 * l.length := by
  induction l with
  | nil => rfl
  | cons kv rest ih => simp [flattenKVs] at ih ⊢; omega

/-- Pairing up a flattened pair list recovers the pairs: the valid inputs
of the constructor round-trip through toKeyValueArray. -/
theorem toKeyValueArray_flattenKVs (l : List KeyValue) :
    toKeyValueArray (flattenKVs l) = .ok l := by
  induction l with
  | nil => rfl
  | cons kv rest ih =>
    show toKeyValueArray (GoVal.str kv.key :: kv.value :: flattenKVs rest) = _
    simp only [toKeyValueArray, ih]

/-- Flattening a concatenation concatenates the flattenings. -/
theorem flattenKVs_append (l₁ l₂ : List KeyValue) :
    flattenKVs (l₁ ++ l₂) = flattenKVs l₁ ++ flattenKVs l₂ := by
  simp [flattenKVs]

/-- GetContexts is the flattening of the stored pairs. -/
theorem getContexts_eq (cl : ContextualLogger) :
    cl.getContexts = flattenKVs cl.keyValues := rfl

/-- Flattening carries permutations of the pair lists to permutations of
the alternating argument lists. -/
theorem flattenKVs_perm {l₁ l₂ : List KeyValue} (h : List.Perm l₁ l₂) :
    List.Perm (flattenKVs l₁) (flattenKVs l₂) :=
  h.flatMap_right _

/-- The constructor accepts every flattened pair list and stores the pairs
sorted by the byKey comparator. -/
theorem create_flattenKVs (l : List KeyValue) :
    CreateContextualLogger (flattenKVs l) = .ok ⟨sortGo byKeyLess l⟩ := by
  unfold CreateContextualLogger
  rw [if_neg (by simp [flattenKVs_length, Nat.mul_mod_right])]
  rw [toKeyValueArray_flattenKVs]

/-- Append accepts every flattened pair list, stores the concatenation
re-sorted, and reports no error. -/
theorem append_flattenKVs (cl : ContextualLogger) (l : List KeyValue) :
    cl.append (flattenKVs l) = .ok (⟨sortGo byKeyLess (cl.keyValues ++ l)⟩, none) := by
  unfold ContextualLogger.append
  rw [if_neg (by simp [flattenKVs_length, Nat.mul_mod_right])]
  rw [toKeyValueArray_flattenKVs]

/-- Setting a cell below the cursor and taking one past it splits off the
new byte. -/
theorem take_set_succ (l : List α) (i : Nat) (b : α) (h : i < l.length) :
    (l.set i b).take (i + 1) = l.take i ++ [b] := by
  induction l generalizing i with
  | nil => simp at h
  | cons a as ih =>
    cases i with
    | zero => simp
    | succ j =>
      simp only [List.set_cons_succ, List.take_succ_cons, List.cons_append]
      rw [ih j (by simpa using h)]

/-- The write loop never changes the capacity. -/
theorem writeLoop_size (p : List UInt8) :
    ∀ (sb : StringWriter) (n : Nat), (writeLoop sb p n).1.size = sb.size := by
  induction p with
  | nil => intro sb n; rfl
  | cons b rest ih =>
    intro sb n
    simp only [writeLoop]
    split
    · rfl
    · rw [ih]

/-- The write loop never changes the buffer length. -/
theorem writeLoop_buffer_length (p : List UInt8) :
    ∀ (sb : StringWriter) (n : Nat),
      (writeLoop sb p n).1.buffer.length = sb.buffer.length := by
  induction p with
  | nil => intro sb n; rfl
  | cons b rest ih =>
    intro sb n
    simp only [writeLoop]
    split
    · rfl
    · rw [ih]; simp

/-- The cursor never moves backwards during a write. -/
theorem writeLoop_index_mono (p : List UInt8) :
    ∀ (sb : StringWriter) (n : Nat), sb.index ≤ (writeLoop sb p n).1.index := by
  induction p with
  | nil => intro sb n; exact Nat.le_refl _
  | cons b rest ih =>
    intro sb n
    simp only [writeLoop]
    split
    · exact Nat.le_refl _
    · have h := ih { sb with buffer := sb.buffer.set sb.index b, index := sb.index + 1 } (n + 1)
      simp only at h
      omega

/-- The cursor never passes the capacity during a write. -/
theorem writeLoop_index_le (p : List UInt8) :
    ∀ (sb : StringWriter) (n : Nat), sb.index ≤ sb.size →
      (writeLoop sb p n).1.index ≤ sb.size := by
  induction p with
  | nil => intro sb n h; exact h
  | cons b rest ih =>
    intro sb n h
    simp only [writeLoop]
    split
    · exact h
    · rename_i hc
      exact ih _ (n + 1) (by simp; omega)

/-- A write that fits writes everything: no overflow signal, the count of
the call is the input length, the cursor advances by it, and the stored
view grows by exactly the input. -/
theorem writeLoop_fits (p : List UInt8) :
    ∀ (sb : StringWriter) (n : Nat), sb.buffer.length = sb.size →
      sb.index + p.length ≤ sb.size →
      (writeLoop sb p n).2.1 = n + p.length ∧
      (writeLoop sb p n).2.2 = false ∧
      (writeLoop sb p n).1.index = sb.index + p.length ∧
      (writeLoop sb p n).1.buffer.take (sb.index + p.length)
        = sb.buffer.take sb.index ++ p := by
  induction p with
  | nil => intro sb n h1 h2; simp [writeLoop]
  | cons b rest ih =>
    intro sb n h1 h2
    simp only [List.length_cons] at h2
    have hlt : sb.index < sb.size := by omega
    simp only [writeLoop, if_neg (by omega : ¬ sb.size ≤ sb.index)]
    obtain ⟨e1, e2, e3, e4⟩ :=
      ih { sb with buffer := sb.buffer.set sb.index b, index := sb.index + 1 }
        (n + 1) (by simp [h1]) (by simp; omega)
    refine ⟨by rw [e1]; simp; omega, e2, by rw [e3]; simp; omega, ?_⟩
    have harith : sb.index + (rest.length + 1) = (sb.index + 1) + rest.length := by omega
    simp only [List.length_cons, harith]
    rw [e4]
    simp only at e4 ⊢
    rw [take_set_succ sb.buffer sb.index b (by omega)]
    simp

/-- A write that overflows stops at capacity: the overflow signal is
raised, the count of the call is the free space that was left, the cursor
ends at capacity, and the stored view grows by the fitting prefix. -/
theorem writeLoop_overflow (p : List UInt8) :
    ∀ (sb : StringWriter) (n : Nat), sb.buffer.length = sb.size →
      sb.index ≤ sb.size → sb.size < sb.index + p.length →
      (writeLoop sb p n).2.1 = n + (sb.size - sb.index) ∧
      (writeLoop sb p n).2.2 = true ∧
      (writeLoop sb p n).1.index = sb.size ∧
      (writeLoop sb p n).1.buffer.take sb.size
        = sb.buffer.take sb.index ++ p.take (sb.size - sb.index) := by
  induction p with
  | nil => intro sb n h1 h2 h3; simp at h3; omega
  | cons b rest ih =>
    intro sb n h1 h2 h3
    simp only [List.length_cons] at h3
    simp only [writeLoop]
    by_cases hc : sb.size ≤ sb.index
    · have heq : sb.size = sb.index := by omega
      rw [if_pos hc]
      refine ⟨?_, rfl, ?_, ?_⟩
      · show n = n + (sb.size - sb.index)
        omega
      · show sb.index = sb.size
        omega
      · show sb.buffer.take sb.size
          = sb.buffer.take sb.index ++ (b :: rest).take (sb.size - sb.index)
        rw [heq, Nat.sub_self]
        simp
    · rw [if_neg hc]
      have hlt : sb.index < sb.size := by omega
      obtain ⟨e1, e2, e3, e4⟩ :=
        ih { sb with buffer := sb.buffer.set sb.index b, index := sb.index + 1 }
          (n + 1) (by simp [h1]) (by simp; omega) (by simp; omega)
      refine ⟨by rw [e1]; simp; omega, e2, by rw [e3], ?_⟩
      simp only at e4
      rw [e4, take_set_succ sb.buffer sb.index b (by omega)]
      have harith : sb.size - sb.index = (sb.size - (sb.index + 1)) + 1 := by omega
      rw [harith, List.take_succ_cons]
      simp

/-- C1: the claim that GetContexts after CreateContextualLogger returns
exactly the input sequence in input order is false: the constructor sorts
the pairs with the byKey comparator, so the equal-length keys b and a come
back in sorted order, not insertion order. -/
theorem c1_counterexample :
    CreateContextualLogger [GoVal.str "b", GoVal.int 1, GoVal.str "a", GoVal.int 2]
      = .ok ⟨[⟨"a", GoVal.int 2⟩, ⟨"b", GoVal.int 1⟩]⟩ ∧
    (ContextualLogger.mk [⟨"a", GoVal.int 2⟩, ⟨"b", GoVal.int 1⟩]).getContexts
      ≠ [GoVal.str "b", GoVal.int 1, GoVal.str "a", GoVal.int 2] :=
  ⟨rfl, by decide⟩

/-- C1 (amended): for every valid key/value pair sequence of at most six
pairs, CreateContextualLogger succeeds and GetContexts returns exactly the
input pairs as a permutation of the input sequence; the stored order is
the byKey-sorted order, which coincides with the insertion order whenever
the comparator orders no two of the keys (for instance when all keys have
pairwise distinct lengths). -/
theorem c1_create_getContexts (ps : List KeyValue) (h : ps.length ≤ 6) :
    CreateContextualLogger (flattenKVs ps) = .ok ⟨sortGo byKeyLess ps⟩ ∧
    List.Perm (ContextualLogger.mk (sortGo byKeyLess ps)).getContexts (flattenKVs ps) ∧
    ((∀ a ∈ ps, ∀ b ∈ ps, byKeyLess a b = false) →
      (ContextualLogger.mk (sortGo byKeyLess ps)).getContexts = flattenKVs ps) := by
  refine ⟨create_flattenKVs ps, ?_, ?_⟩
  · rw [getContexts_eq]
    exact flattenKVs_perm (sortGo_perm byKeyLess ps)
  · intro hall
    rw [getContexts_eq]
    simp only
    rw [sortGo_eq_self byKeyLess ps hall]

/-- C1 witness: a two-pair input with keys of distinct lengths, on which
the amended statement evaluates as stated. -/
theorem c1_create_getContexts_witness :
    ([⟨"ab", GoVal.int 1⟩, ⟨"c", GoVal.int 2⟩] : List KeyValue).length ≤ 6 ∧
    (CreateContextualLogger (flattenKVs [⟨"ab", GoVal.int 1⟩, ⟨"c", GoVal.int 2⟩])
        = .ok ⟨sortGo byKeyLess [⟨"ab", GoVal.int 1⟩, ⟨"c", GoVal.int 2⟩]⟩ ∧
      List.Perm
        (ContextualLogger.mk (sortGo byKeyLess [⟨"ab", GoVal.int 1⟩, ⟨"c", GoVal.int 2⟩])).getContexts
        (flattenKVs [⟨"ab", GoVal.int 1⟩, ⟨"c", GoVal.int 2⟩]) ∧
      ((∀ a ∈ ([⟨"ab", GoVal.int 1⟩, ⟨"c", GoVal.int 2⟩] : List KeyValue),
          ∀ b ∈ ([⟨"ab", GoVal.int 1⟩, ⟨"c", GoVal.int 2⟩] : List KeyValue),
          byKeyLess a b = false) →
        (ContextualLogger.mk (sortGo byKeyLess [⟨"ab", GoVal.int 1⟩, ⟨"c", GoVal.int 2⟩])).getContexts
          = flattenKVs [⟨"ab", GoVal.int 1⟩, ⟨"c", GoVal.int 2⟩])) :=
  ⟨by decide, c1_create_getContexts _ (by decide)⟩

/-- C2: the claim that Create(A) followed by Append(B) makes GetContexts
return A concatenated with B in order is false: Append re-sorts the whole
stored list with the byKey comparator, so the equal-length keys are
reordered. -/
theorem c2_counterexample :
    CreateContextualLogger [GoVal.str "b", GoVal.int 1] = .ok ⟨[⟨"b", GoVal.int 1⟩]⟩ ∧
    (ContextualLogger.mk [⟨"b", GoVal.int 1⟩]).append [GoVal.str "a", GoVal.int 2]
      = .ok (⟨[⟨"a", GoVal.int 2⟩, ⟨"b", GoVal.int 1⟩]⟩, none) ∧
    (ContextualLogger.mk [⟨"a", GoVal.int 2⟩, ⟨"b", GoVal.int 1⟩]).getContexts
      ≠ [GoVal.str "b", GoVal.int 1] ++ [GoVal.str "a", GoVal.int 2] :=
  ⟨rfl, rfl, by decide⟩

/-- C2 (amended): for all pair sequences A and B totalling at most six
pairs, Create(A) then Append(B) succeeds and GetContexts returns exactly
the pairs of A followed by B as a permutation of the concatenation; the
stored order is the byKey-sorted order of the combined list, which
coincides with the concatenation order whenever the comparator orders no
two of the keys involved. -/
theorem c2_append_concat (ps qs : List KeyValue) (h : ps.length + qs.length ≤ 6) :
    CreateContextualLogger (flattenKVs ps) = .ok ⟨sortGo byKeyLess ps⟩ ∧
    (ContextualLogger.mk (sortGo byKeyLess ps)).append (flattenKVs qs)
      = .ok (⟨sortGo byKeyLess (sortGo byKeyLess ps ++ qs)⟩, none) ∧
    List.Perm
      (ContextualLogger.mk (sortGo byKeyLess (sortGo byKeyLess ps ++ qs))).getContexts
      (flattenKVs ps ++ flattenKVs qs) ∧
    ((∀ a ∈ ps ++ qs, ∀ b ∈ ps ++ qs, byKeyLess a b = false) →
      (ContextualLogger.mk (sortGo byKeyLess (sortGo byKeyLess ps ++ qs))).getContexts
        = flattenKVs ps ++ flattenKVs qs) := by
  refine ⟨create_flattenKVs ps, append_flattenKVs _ qs, ?_, ?_⟩
  · rw [getContexts_eq]
    have h1 : List.Perm (sortGo byKeyLess (sortGo byKeyLess ps ++ qs)) (ps ++ qs) :=
      (sortGo_perm _ _).trans ((sortGo_perm byKeyLess ps).append_right qs)
    have h2 := flattenKVs_perm h1
    rw [flattenKVs_append] at h2
    exact h2
  · intro hall
    rw [getContexts_eq]
    simp only
    have hps : ∀ a ∈ ps, ∀ b ∈ ps, byKeyLess a b = false := fun a ha b hb =>
      hall a (List.mem_append_left _ ha) b (List.mem_append_left _ hb)
    rw [sortGo_eq_self byKeyLess ps hps, sortGo_eq_self byKeyLess (ps ++ qs) hall,
      flattenKVs_append]

/-- C2 witness: one pair appended to one pair, keys of distinct lengths,
on which the amended statement evaluates as stated. -/
theorem c2_append_concat_witness :
    ([⟨"ab", GoVal.int 1⟩] : List KeyValue).length
      + ([⟨"c", GoVal.int 2⟩] : List KeyValue).length ≤ 6 ∧
    (CreateContextualLogger (flattenKVs [⟨"ab", GoVal.int 1⟩])
        = .ok ⟨sortGo byKeyLess [⟨"ab", GoVal.int 1⟩]⟩ ∧
      (ContextualLogger.mk (sortGo byKeyLess [⟨"ab", GoVal.int 1⟩])).append
          (flattenKVs [⟨"c", GoVal.int 2⟩])
        = .ok (⟨sortGo byKeyLess (sortGo byKeyLess [⟨"ab", GoVal.int 1⟩]
            ++ [⟨"c", GoVal.int 2⟩])⟩, none) ∧
      List.Perm
        (ContextualLogger.mk (sortGo byKeyLess (sortGo byKeyLess [⟨"ab", GoVal.int 1⟩]
          ++ [⟨"c", GoVal.int 2⟩]))).getContexts
        (flattenKVs [⟨"ab", GoVal.int 1⟩] ++ flattenKVs [⟨"c", GoVal.int 2⟩]) ∧
      ((∀ a ∈ ([⟨"ab", GoVal.int 1⟩] : List KeyValue) ++ [⟨"c", GoVal.int 2⟩],
          ∀ b ∈ ([⟨"ab", GoVal.int 1⟩] : List KeyValue) ++ [⟨"c", GoVal.int 2⟩],
          byKeyLess a b = false) →
        (ContextualLogger.mk (sortGo byKeyLess (sortGo byKeyLess [⟨"ab", GoVal.int 1⟩]
          ++ [⟨"c", GoVal.int 2⟩]))).getContexts
          = flattenKVs [⟨"ab", GoVal.int 1⟩] ++ flattenKVs [⟨"c", GoVal.int 2⟩])) :=
  ⟨by decide, c2_append_concat _ _ (by decide)⟩

/-- C3: the claim that a derived child satisfies
child.GetContexts = parent.GetContexts ++ X is false: the internal Append
of CreateFromContext re-sorts the combined list with the byKey comparator,
so the equal-length keys come back in sorted order. The parent post-state
is nevertheless unchanged. -/
theorem c3_counterexample :
    (ContextualLogger.mk [⟨"b", GoVal.int 1⟩]).createFromContext [GoVal.str "a", GoVal.int 2]
      = .ok (⟨[⟨"b", GoVal.int 1⟩]⟩, .ok ⟨[⟨"a", GoVal.int 2⟩, ⟨"b", GoVal.int 1⟩]⟩) ∧
    (ContextualLogger.mk [⟨"a", GoVal.int 2⟩, ⟨"b", GoVal.int 1⟩]).getContexts
      ≠ (ContextualLogger.mk [⟨"b", GoVal.int 1⟩]).getContexts
        ++ [GoVal.str "a", GoVal.int 2] :=
  ⟨rfl, by decide⟩

/-- C3 (amended): for every parent logger and extra pair sequence
totalling at most six pairs, CreateFromContext succeeds, the parent
post-state is exactly the parent (the derivation never mutates the
receiver, and the child is built from a fresh copy of the flattened
contexts, so later mutation of the child cannot touch the parent), and
the child contexts are a permutation of parent.GetContexts ++ X; the
child order is the byKey-sorted order of the combined pairs, which
coincides with the concatenation order whenever the comparator orders no
two of the keys involved. -/
theorem c3_createFromContext_frame (cl : ContextualLogger) (xs : List KeyValue)
    (h : cl.keyValues.length + xs.length ≤ 6) :
    cl.createFromContext (flattenKVs xs)
      = .ok (cl, .ok ⟨sortGo byKeyLess (sortGo byKeyLess cl.keyValues ++ xs)⟩) ∧
    List.Perm
      (ContextualLogger.mk (sortGo byKeyLess (sortGo byKeyLess cl.keyValues ++ xs))).getContexts
      (cl.getContexts ++ flattenKVs xs) ∧
    ((∀ a ∈ cl.keyValues ++ xs, ∀ b ∈ cl.keyValues ++ xs, byKeyLess a b = false) →
      (ContextualLogger.mk (sortGo byKeyLess (sortGo byKeyLess cl.keyValues ++ xs))).getContexts
        = cl.getContexts ++ flattenKVs xs) := by
  refine ⟨?_, ?_, ?_⟩
  · simp only [ContextualLogger.createFromContext, getContexts_eq, create_flattenKVs,
      append_flattenKVs]
  · rw [getContexts_eq, getContexts_eq]
    have h1 : List.Perm (sortGo byKeyLess (sortGo byKeyLess cl.keyValues ++ xs))
        (cl.keyValues ++ xs) :=
      (sortGo_perm _ _).trans ((sortGo_perm byKeyLess cl.keyValues).append_right xs)
    have h2 := flattenKVs_perm h1
    rw [flattenKVs_append] at h2
    exact h2
  · intro hall
    rw [getContexts_eq, getContexts_eq]
    simp only
    have hps : ∀ a ∈ cl.keyValues, ∀ b ∈ cl.keyValues, byKeyLess a b = false :=
      fun a ha b hb =>
        hall a (List.mem_append_left _ ha) b (List.mem_append_left _ hb)
    rw [sortGo_eq_self byKeyLess cl.keyValues hps,
      sortGo_eq_self byKeyLess (cl.keyValues ++ xs) hall, flattenKVs_append]

/-- C3 witness: a one-pair parent and a one-pair extension with keys of
distinct lengths, on which the amended statement evaluates as stated. -/
theorem c3_createFromContext_frame_witness :
    (ContextualLogger.mk [⟨"ab", GoVal.int 1⟩]).keyValues.length
      + ([⟨"c", GoVal.int 2⟩] : List KeyValue).length ≤ 6 ∧
    ((ContextualLogger.mk [⟨"ab", GoVal.int 1⟩]).createFromContext
        (flattenKVs [⟨"c", GoVal.int 2⟩])
      = .ok (ContextualLogger.mk [⟨"ab", GoVal.int 1⟩],
          .ok ⟨sortGo byKeyLess
            (sortGo byKeyLess (ContextualLogger.mk [⟨"ab", GoVal.int 1⟩]).keyValues
              ++ [⟨"c", GoVal.int 2⟩])⟩) ∧
      List.Perm
        (ContextualLogger.mk (sortGo byKeyLess
          (sortGo byKeyLess (ContextualLogger.mk [⟨"ab", GoVal.int 1⟩]).keyValues
            ++ [⟨"c", GoVal.int 2⟩]))).getContexts
        ((ContextualLogger.mk [⟨"ab", GoVal.int 1⟩]).getContexts
          ++ flattenKVs [⟨"c", GoVal.int 2⟩]) ∧
      ((∀ a ∈ (ContextualLogger.mk [⟨"ab", GoVal.int 1⟩]).keyValues ++ [⟨"c", GoVal.int 2⟩],
          ∀ b ∈ (ContextualLogger.mk [⟨"ab", GoVal.int 1⟩]).keyValues ++ [⟨"c", GoVal.int 2⟩],
          byKeyLess a b = false) →
        (ContextualLogger.mk (sortGo byKeyLess
          (sortGo byKeyLess (ContextualLogger.mk [⟨"ab", GoVal.int 1⟩]).keyValues
            ++ [⟨"c", GoVal.int 2⟩]))).getContexts
          = (ContextualLogger.mk [⟨"ab", GoVal.int 1⟩]).getContexts
            ++ flattenKVs [⟨"c", GoVal.int 2⟩])) :=
  ⟨by decide, c3_createFromContext_frame _ _ (by decide)⟩

/-- C4: an odd-length argument sequence makes CreateContextualLogger
panic with ErrWrongNumberOfArgs, makes Append return that error to the
caller, and makes MustAppend and MustCreateFromContext panic with it. -/
theorem c4_odd_length_fails (kvs : List GoVal) (cl : ContextualLogger)
    (h : kvs.length % 2 = 1) :
    CreateContextualLogger kvs = .error (.errPanic .wrongNumberOfArgs) ∧
    cl.append kvs = .ok (cl, some .wrongNumberOfArgs) ∧
    cl.mustAppend kvs = .error (.errPanic .wrongNumberOfArgs) ∧
    cl.mustCreateFromContext kvs = .error (.errPanic .wrongNumberOfArgs) := by
  have hodd : kvs.length % 2 ≠ 0 := by omega
  have happ : cl.append kvs = .ok (cl, some .wrongNumberOfArgs) := by
    unfold ContextualLogger.append
    rw [if_pos hodd]
  refine ⟨?_, happ, ?_, ?_⟩
  · unfold CreateContextualLogger
    rw [if_pos hodd]
  · unfold ContextualLogger.mustAppend
    rw [happ]
  · unfold ContextualLogger.mustCreateFromContext ContextualLogger.createFromContext
    rw [getContexts_eq, create_flattenKVs]
    simp only
    have happ2 : (ContextualLogger.mk (sortGo byKeyLess cl.keyValues)).append kvs
        = .ok (⟨sortGo byKeyLess cl.keyValues⟩, some .wrongNumberOfArgs) := by
      unfold ContextualLogger.append
      rw [if_pos hodd]
    rw [happ2]

/-- C4 witness: a single dangling key. -/
theorem c4_odd_length_fails_witness :
    ([GoVal.str "k"] : List GoVal).length % 2 = 1 ∧
    (CreateContextualLogger [GoVal.str "k"] = .error (.errPanic .wrongNumberOfArgs) ∧
      (ContextualLogger.mk []).append [GoVal.str "k"]
        = .ok (ContextualLogger.mk [], some .wrongNumberOfArgs) ∧
      (ContextualLogger.mk []).mustAppend [GoVal.str "k"]
        = .error (.errPanic .wrongNumberOfArgs) ∧
      (ContextualLogger.mk []).mustCreateFromContext [GoVal.str "k"]
        = .error (.errPanic .wrongNumberOfArgs)) :=
  ⟨by decide, c4_odd_length_fails _ _ (by decide)⟩

/-- C5: a failing Append is local and atomic: on an odd-length argument
sequence the receiver post-state is exactly the prior state with no
partial pairs added, both for a direct Append and for the internal Append
of CreateFromContext (whose receiver post-state is also untouched). -/
theorem c5_append_atomic (cl : ContextualLogger) (kvs : List GoVal)
    (h : kvs.length % 2 = 1) :
    cl.append kvs = .ok (cl, some .wrongNumberOfArgs) ∧
    cl.createFromContext kvs = .ok (cl, .error .wrongNumberOfArgs) := by
  have hodd : kvs.length % 2 ≠ 0 := by omega
  constructor
  · unfold ContextualLogger.append
    rw [if_pos hodd]
  · unfold ContextualLogger.createFromContext
    rw [getContexts_eq, create_flattenKVs]
    simp only
    have happ2 : (ContextualLogger.mk (sortGo byKeyLess cl.keyValues)).append kvs
        = .ok (⟨sortGo byKeyLess cl.keyValues⟩, some .wrongNumberOfArgs) := by
      unfold ContextualLogger.append
      rw [if_pos hodd]
    rw [happ2]

/-- C5 witness: a one-pair logger given a dangling key keeps its stored
pair. -/
theorem c5_append_atomic_witness :
    ([GoVal.str "k", GoVal.int 3, GoVal.str "x"] : List GoVal).length % 2 = 1 ∧
    ((ContextualLogger.mk [⟨"a", GoVal.int 9⟩]).append
        [GoVal.str "k", GoVal.int 3, GoVal.str "x"]
      = .ok (ContextualLogger.mk [⟨"a", GoVal.int 9⟩], some .wrongNumberOfArgs) ∧
    (ContextualLogger.mk [⟨"a", GoVal.int 9⟩]).createFromContext
        [GoVal.str "k", GoVal.int 3, GoVal.str "x"]
      = .ok (ContextualLogger.mk [⟨"a", GoVal.int 9⟩], .error .wrongNumberOfArgs)) :=
  ⟨by decide, c5_append_atomic _ _ (by decide)⟩

/-- C6: on a fresh writer of capacity C, a write of at most C bytes
succeeds with count equal to the input length and Bytes equal to the
input; a longer write keeps exactly the first C bytes, returns the count
of bytes actually written in the call (C), and reports the overflow; and
a reset makes the next write produce Bytes fresh from empty. -/
theorem c6_boundedWriter (C : Nat) (p q : List UInt8) (w : StringWriter)
    (hw : w.buffer.length = w.size) :
    (p.length ≤ C →
      ((NewStringWriter C).write p).2.1 = p.length ∧
      ((NewStringWriter C).write p).2.2 = false ∧
      ((NewStringWriter C).write p).1.bytes = p) ∧
    (C < p.length →
      ((NewStringWriter C).write p).2.1 = C ∧
      ((NewStringWriter C).write p).2.2 = true ∧
      ((NewStringWriter C).write p).1.bytes = p.take C) ∧
    w.reset.bytes = [] ∧
    (w.reset.write q).1.bytes = q.take (min q.length w.size) := by
  have hnew : (NewStringWriter C).buffer.length = (NewStringWriter C).size := by
    simp [NewStringWriter]
  refine ⟨?_, ?_, ?_, ?_⟩
  · intro hle
    obtain ⟨e1, e2, e3, e4⟩ := writeLoop_fits p (NewStringWriter C) 0 hnew
      (by simp only [NewStringWriter]; omega)
    simp only [NewStringWriter, Nat.zero_add, List.take_zero, List.nil_append] at e1 e3 e4
    exact ⟨e1, e2, by simp only [StringWriter.write, StringWriter.bytes, NewStringWriter,
      e3, e4]⟩
  · intro hgt
    obtain ⟨e1, e2, e3, e4⟩ := writeLoop_overflow p (NewStringWriter C) 0 hnew
      (by simp [NewStringWriter]) (by simp only [NewStringWriter]; omega)
    simp only [NewStringWriter, Nat.zero_add, Nat.sub_zero, List.take_zero,
      List.nil_append] at e1 e3 e4
    exact ⟨e1, e2, by simp only [StringWriter.write, StringWriter.bytes, NewStringWriter,
      e3, e4]⟩
  · simp [StringWriter.reset, StringWriter.bytes]
  · have hr1 : w.reset.buffer.length = w.reset.size := hw
    rcases Nat.lt_or_ge w.size q.length with hgt | hle
    swap
    · obtain ⟨e1, e2, e3, e4⟩ := writeLoop_fits q w.reset 0 hr1
        (by simp only [StringWriter.reset]; omega)
      simp only [StringWriter.reset, Nat.zero_add, List.take_zero, List.nil_append] at e3 e4
      rw [Nat.min_eq_left hle, List.take_of_length_le (Nat.le_refl _)]
      simp only [StringWriter.write, StringWriter.bytes, StringWriter.reset, e3, e4]
    · obtain ⟨e1, e2, e3, e4⟩ := writeLoop_overflow q w.reset 0 hr1
        (by simp [StringWriter.reset]) (by simp only [StringWriter.reset]; omega)
      simp only [StringWriter.reset, Nat.zero_add, Nat.sub_zero, List.take_zero,
        List.nil_append] at e3 e4
      rw [Nat.min_eq_right (Nat.le_of_lt hgt)]
      simp only [StringWriter.write, StringWriter.bytes, StringWriter.reset, e3, e4]

/-- C6 witness: a capacity-2 writer filled with two, then three bytes,
and a reset capacity-1 writer rewritten with one byte. -/
theorem c6_boundedWriter_witness :
    (NewStringWriter 1).buffer.length = (NewStringWriter 1).size ∧
    (([7, 9] : List UInt8).length ≤ 2 →
      ((NewStringWriter 2).write [7, 9]).2.1 = ([7, 9] : List UInt8).length ∧
      ((NewStringWriter 2).write [7, 9]).2.2 = false ∧
      ((NewStringWriter 2).write [7, 9]).1.bytes = [7, 9]) ∧
    (2 < ([7, 9] : List UInt8).length →
      ((NewStringWriter 2).write [7, 9]).2.1 = 2 ∧
      ((NewStringWriter 2).write [7, 9]).2.2 = true ∧
      ((NewStringWriter 2).write [7, 9]).1.bytes = ([7, 9] : List UInt8).take 2) ∧
    (NewStringWriter 1).reset.bytes = [] ∧
    ((NewStringWriter 1).reset.write [5]).1.bytes
      = ([5] : List UInt8).take (min ([5] : List UInt8).length (NewStringWriter 1).size) :=
  ⟨by decide, c6_boundedWriter 2 [7, 9] [5] (NewStringWriter 1) (by decide)⟩

/-- C7: the invariant index at most size holds for the constructor and is
preserved by Write and Reset (which also keep the capacity unchanged);
the cursor never decreases across a Write and is zeroed by Reset; Bytes
reads the state without changing it. -/
theorem c7_boundedWriter_invariant (C : Nat) (w : StringWriter) (p : List UInt8)
    (h : w.index ≤ w.size) :
    (NewStringWriter C).index = 0 ∧
    (NewStringWriter C).index ≤ (NewStringWriter C).size ∧
    (w.write p).1.size = w.size ∧
    (w.write p).1.index ≤ (w.write p).1.size ∧
    w.index ≤ (w.write p).1.index ∧
    w.reset.index = 0 ∧
    w.reset.size = w.size ∧
    w.reset.index ≤ w.reset.size := by
  refine ⟨rfl, by simp [NewStringWriter], writeLoop_size p w 0, ?_,
    writeLoop_index_mono p w 0, rfl, rfl, by simp [StringWriter.reset]⟩
  have hs : (w.write p).1.size = w.size := writeLoop_size p w 0
  rw [hs]
  exact writeLoop_index_le p w 0 h

/-- C7 witness: a capacity-1 writer written past capacity. -/
theorem c7_boundedWriter_invariant_witness :
    (NewStringWriter 1).index ≤ (NewStringWriter 1).size ∧
    ((NewStringWriter 3).index = 0 ∧
      (NewStringWriter 3).index ≤ (NewStringWriter 3).size ∧
      ((NewStringWriter 1).write [4, 5]).1.size = (NewStringWriter 1).size ∧
      ((NewStringWriter 1).write [4, 5]).1.index ≤ ((NewStringWriter 1).write [4, 5]).1.size ∧
      (NewStringWriter 1).index ≤ ((NewStringWriter 1).write [4, 5]).1.index ∧
      (NewStringWriter 1).reset.index = 0 ∧
      (NewStringWriter 1).reset.size = (NewStringWriter 1).size ∧
      (NewStringWriter 1).reset.index ≤ (NewStringWriter 1).reset.size) :=
  ⟨by decide, c7_boundedWriter_invariant 3 (NewStringWriter 1) [4, 5] (by decide)⟩

/-- C8: when a level is disabled the accessor returns the nil sentinel and
the attachment loop is skipped entirely: the disabled Info accessor yields
none for every stored context, and addContext maps the nil sentinel to the
nil sentinel regardless of the stored pairs. -/
theorem c8_disabled_level_noop (cl : ContextualLogger) :
    cl.info false = none ∧ cl.addContext none = none :=
  ⟨rfl, rfl⟩

/-- C9: when caller inspection fails, ErrorLineC attaches the sentinel
filename unknown as the @file field but, contrary to the claim, attaches
no @line field at all (the sentinel -1 assignment is dead code because the
attachment is guarded on success); the stored attributes are still
attached. On success both @file and @line are attached before the stored
attributes. -/
theorem c9_errorLineC_behavior :
    (ContextualLogger.mk [⟨"k", GoVal.str "v"⟩]).errorLineC true none
      = some [EvField.str "@file" "unknown", EvField.str "k" "v"] ∧
    (ContextualLogger.mk [⟨"k", GoVal.str "v"⟩]).errorLineC true (some ("f.go", 10))
      = some [EvField.str "@file" "f.go", EvField.int "@line" 10, EvField.str "k" "v"] :=
  ⟨rfl, rfl⟩

/-- C10: an even-length sequence whose key position holds a non-string
value makes CreateContextualLogger and Append abort with the
type-assertion panic of toKeyValueArray instead of returning the
InvalidArgumentCount error: string keys are an unchecked precondition. -/
theorem c10_nonstring_key_panics :
    CreateContextualLogger [GoVal.int 7, GoVal.str "v"] = .error .typeAssertPanic ∧
    (ContextualLogger.mk []).append [GoVal.int 7, GoVal.str "v"]
      = .error .typeAssertPanic ∧
    CreateContextualLogger [GoVal.int 7, GoVal.str "v"]
      ≠ .error (.errPanic .wrongNumberOfArgs) := by
  refine ⟨rfl, rfl, ?_⟩
  intro hcon
  rw [(rfl : CreateContextualLogger [GoVal.int 7, GoVal.str "v"]
    = .error .typeAssertPanic)] at hcon
  injection hcon with h2
  exact absurd h2 (by decide)
